import Mathlib

/-!
Shallow embedding of the data pipeline of `src/app.py` (a single-page
air-quality dashboard fetching OpenAQ v3 data): the HTTP retry loop `_get`,
the normalizers `list_locations` and `fetch_days`, the per-station sensor
averaging, the outer merge of per-station daily series, the KPI
computations (`ultimo`, 7/30-day means), the label build/parse round trip,
and a small heap model for the one `inplace=True` mutation.

Numeric values are modelled as `ℚ` (pandas floats on the exact-arithmetic
fragment the claims mention), dates/timestamps as integers (days / epoch
instants), and fallible Python code as `Except`/`Option`.
-/

namespace AppPy

/-! ### Fetcher (`_get`, `need_key`; app.py lines 25-41)

A run of `_get` is modelled against an oracle `resp : ℕ → Except String α`
giving the outcome of the i-th `requests.get` attempt: `.error cause` both
for transport failures and for `raise_for_status` on HTTP status ≥ 400
(both are caught by the same `except Exception` clause), `.ok` for a parsed
JSON body.  The trace records the number of `requests.get` calls issued and
the list of `time.sleep` durations. -/

/-- Errors the fetcher can signal: `missingCredential` models
`need_key`'s `st.stop()` on an absent API key, `fetch cause` models the
final `raise RuntimeError(f"Falla GET {url}: {last}")`. -/
inductive GetErr where
  | missingCredential : GetErr
  | fetch : Option String → GetErr
deriving DecidableEq

/-- Observable trace of one `_get` call: its outcome, how many
`requests.get` attempts were issued, and the `time.sleep` durations. -/
structure GetTrace (α : Type) where
  result : Except GetErr α
  attempts : ℕ
  sleeps : List ℚ

/-- The retry loop `for _ in range(retries): try ... except ...` of `_get`
(app.py lines 33-40): `fuel` is the remaining iterations, `i` the index of
the next attempt, `last` the last caught exception. After the loop the
`RuntimeError` is raised carrying `last`.  Each failed attempt sleeps 1.2
seconds. -/
def getLoop {α : Type} (resp : ℕ → Except String α) : ℕ → ℕ → Option String → GetTrace α
  | 0, i, last => ⟨Except.error (GetErr.fetch last), i, []⟩
  | fuel + 1, i, _last =>
    match resp i with
    | Except.ok v => ⟨Except.ok v, i + 1, []⟩
    | Except.error e =>
      let t := getLoop resp fuel (i + 1) (some e)
      ⟨t.result, t.attempts, (1.2 : ℚ) :: t.sleeps⟩

/-- Model of `_get(url, params, timeout=30, retries=3)` (app.py lines
30-41): it first runs `need_key()` (lines 25-28), which stops the script
when `API_KEY` is empty, before any request is made; then it runs the
retry loop. `last` starts as `None`. -/
def _get {α : Type} (apiKey : String) (resp : ℕ → Except String α) (retries : ℕ) : GetTrace α :=
  if apiKey = "" then ⟨Except.error GetErr.missingCredential, 0, []⟩
  else getLoop resp retries 0 none

/-! ### JSON values

Upstream payloads are JSON documents.  ISO timestamp strings are modelled
already parsed, as an aware instant `Aware` (UTC epoch plus a display
offset); `pd.to_datetime(...).dt.tz_convert(None)` then projects out the
UTC epoch (the timezone-naive UTC reading). -/

/-- A timezone-aware timestamp: the instant in UTC and the timezone offset
it is displayed in. -/
structure Aware where
  epoch : ℤ
  offset : ℤ
deriving DecidableEq

/-- `tz_convert(None)` on an aware timestamp: convert to UTC and drop the
timezone, leaving the naive UTC instant (app.py line 81). -/
def tzConvertNone (a : Aware) : ℤ := a.epoch

/-- JSON-like values as returned by `r.json()`, with timestamps kept as
parsed aware instants. -/
inductive J where
  | null : J
  | str : String → J
  | num : ℚ → J
  | time : Aware → J
  | arr : List J → J
  | obj : List (String × J) → J

/-- Python `d.get(k)` on a dict: `none` when the key is absent (or the
value is not a dict). -/
def jget (j : J) (k : String) : Option J :=
  match j with
  | J.obj fields => List.lookup k fields
  | _ => none

/-- Python `d.get(k, default)` on a dict. -/
def jgetD (j : J) (k : String) (d : J) : J := (jget j k).getD d

/-- Python `d[k]` on a dict: raises `KeyError` (modelled as `Except.error`
carrying the key) when the key is absent or the value is not a dict. -/
def jindex (j : J) (k : String) : Except String J :=
  match jget j k with
  | some v => Except.ok v
  | none => Except.error k

/-! ### `fetch_days` (app.py lines 70-83)

For each record `r` of `data.get("results", [])` the code reads
`r["period"]["datetimeFrom"]["utc"]` and `r["value"]` (direct indexing:
`KeyError` when absent), collects `(date_utc, value)` rows, then — when the
frame is nonempty — converts `date_utc` with
`pd.to_datetime(...).dt.tz_convert(None)` and sorts by `Fecha`. -/

/-- Extract the aware timestamp of one record:
`r["period"]["datetimeFrom"]["utc"]`. -/
def recordTime (r : J) : Except String Aware := do
  let p ← jindex r "period"
  let dtf ← jindex p "datetimeFrom"
  let utc ← jindex dtf "utc"
  match utc with
  | J.time a => Except.ok a
  | _ => Except.error "utc"

/-- Extract the numeric value of one record: `r["value"]`. -/
def recordValue (r : J) : Except String ℚ := do
  let v ← jindex r "value"
  match v with
  | J.num q => Except.ok q
  | _ => Except.error "value"

/-- The row-building loop of `fetch_days`: one `(date_utc, value)` row per
record of `data.get("results", [])`. -/
def fetch_days_rows (data : J) : Except String (List (Aware × ℚ)) :=
  match jgetD data "results" (J.arr []) with
  | J.arr rs => rs.mapM (fun r => do
      let t ← recordTime r
      let v ← recordValue r
      pure (t, v))
  | _ => Except.error "results"

/-- The dataframe stage of `fetch_days`: convert every timestamp to the
naive UTC reading (`tz_convert(None)`) and sort ascending by `Fecha`
(`sort_values("Fecha")`).  On an empty row list this is the empty frame. -/
def fetch_days_frame (rows : List (Aware × ℚ)) : List (ℤ × ℚ) :=
  List.insertionSort (fun a b => a.1 ≤ b.1)
    (rows.map (fun p => (tzConvertNone p.1, p.2)))

instance : IsTotal (ℤ × ℚ) (fun a b => a.1 ≤ b.1) :=
  ⟨fun a b => le_total a.1 b.1⟩

instance : IsTrans (ℤ × ℚ) (fun a b => a.1 ≤ b.1) :=
  ⟨fun _ _ _ h h2 => le_trans h h2⟩

/-- Model of `fetch_days` (app.py lines 70-83): canonical per-sensor daily
rows `(Fecha, value)`, or the uncaught Python exception. -/
def fetch_days (data : J) : Except String (List (ℤ × ℚ)) :=
  (fetch_days_rows data).map fetch_days_frame

/-! ### `list_locations` (app.py lines 43-62) -/

/-- One row built by `list_locations`' loop body. -/
structure LocRow where
  location_id : J
  name : Option J
  locality : Option J
  provider : Option J
  owner : Option J
  lat : Option J
  lon : Option J
  timezone : Option J
  sensors : List J

/-- `(loc.get(k) or {}).get("name")`: the falsy-or default, then `.get`. -/
def subName (loc : J) (k : String) : Option J :=
  match jget loc k with
  | some (J.obj fields) => List.lookup "name" fields
  | _ => none

/-- `coords.get(k)` where `coords = loc.get("coordinates") or {}`. -/
def coordGet (loc : J) (k : String) : Option J :=
  match jget loc "coordinates" with
  | some (J.obj fields) => List.lookup k fields
  | _ => none

/-- Sensor filter: `[s for s in loc.get("sensors", []) if
s.get("parameter", {}).get("id") == parameter_id]`. -/
def locSensors (loc : J) (pid : ℚ) : List J :=
  match jgetD loc "sensors" (J.arr []) with
  | J.arr ss => ss.filter (fun s =>
      match jget (jgetD s "parameter" (J.obj [])) "id" with
      | some (J.num q) => q == pid
      | _ => false)
  | _ => []

/-- The loop body of `list_locations`: builds one row, reading `loc["id"]`
by direct indexing (a `KeyError` when absent) and everything else with
`.get`. -/
def mkLocRow (pid : ℚ) (loc : J) : Except String LocRow := do
  let i ← jindex loc "id"
  pure
    { location_id := i
      name := jget loc "name"
      locality := jget loc "locality"
      provider := subName loc "provider"
      owner := subName loc "owner"
      lat := coordGet loc "latitude"
      lon := coordGet loc "longitude"
      timezone := jget loc "timezone"
      sensors := locSensors loc pid }

/-- Model of `list_locations` (app.py lines 44-62): the station rows, or
the uncaught Python exception. -/
def list_locations (data : J) (pid : ℚ) : Except String (List LocRow) :=
  match jgetD data "results" (J.arr []) with
  | J.arr ls => ls.mapM (mkLocRow pid)
  | _ => Except.error "results"

/-! ### Per-station sensor averaging (app.py lines 129-140)

`pd.concat(series_loc, axis=1)` outer-aligns the per-sensor daily frames on
their `Fecha` index; `.mean(axis=1)` takes the row-wise arithmetic mean,
skipping missing cells (pandas `skipna`).  A sensor series is a list of
`(date, value)` rows with distinct dates. -/

/-- The cells of the concat-aligned row at date `d`: one cell per sensor,
`none` where that sensor has no row at `d`. -/
def alignRow (sensors : List (List (ℕ × ℚ))) (d : ℕ) : List (Option ℚ) :=
  sensors.map (fun s => List.lookup d s)

/-- Arithmetic mean of the present cells, pandas `skipna` style: `none`
(NaN) when no cell is present. -/
def meanSkipna (cells : List (Option ℚ)) : Option ℚ :=
  let vs := cells.filterMap id
  if vs = [] then none else some (vs.sum / (vs.length : ℚ))

/-- The per-station daily value at date `d`:
`pd.concat(series_loc, axis=1).mean(axis=1)` evaluated at `d`
(app.py line 138). -/
def station_daily (sensors : List (List (ℕ × ℚ))) (d : ℕ) : Option ℚ :=
  meanSkipna (alignRow sensors d)

/-! ### The merged frame and the KPIs (app.py lines 146-158)

`df_final` is modelled as a frame: a column count (the selected stations,
excluding the `Fecha` column) and date-keyed rows of optional cells. -/

/-- The merged wide frame: `rows` pairs a date with the per-station cells
(`none` = missing/NaN); `ncols` is the number of station columns. -/
structure Frame where
  ncols : ℕ
  rows : List (ℕ × List (Option ℚ))
deriving DecidableEq

/-- `df.tail(w)`: the last `w` rows. -/
def tailF (w : ℕ) (f : Frame) : Frame :=
  ⟨f.ncols, f.rows.drop (f.rows.length - w)⟩

/-- `df.dropna()`: keep only the rows where every station cell is present
(the `Fecha` key itself is never missing). -/
def dropnaF (f : Frame) : Frame :=
  ⟨f.ncols, f.rows.filter (fun r => r.2.all (fun c => c.isSome))⟩

/-- `ultimo = df_final.dropna().iloc[-1, 1:].mean()` (app.py line 153):
`iloc[-1]` raises an `IndexError` when the dropna frame has no rows. -/
def ultimo (f : Frame) : Except String (Option ℚ) :=
  match (dropnaF f).rows.getLast? with
  | none => Except.error "IndexError"
  | some r => Except.ok (meanSkipna r.2)

/-- `df.iloc[:,j].mean()`: skipna mean of column `j`. -/
def colMean (f : Frame) (j : ℕ) : Option ℚ :=
  meanSkipna (f.rows.map (fun r => r.2.getD j none))

/-- `df.iloc[:,1:].mean().mean()`: the mean of the per-column skipna means,
itself skipping NaN columns. -/
def meanOfColMeans (f : Frame) : Option ℚ :=
  meanSkipna ((List.range f.ncols).map (colMean f))

/-- `prom_N = df_final.tail(N).dropna().iloc[:,1:].mean().mean()`
(app.py lines 154-155), for window `w` ∈ {7, 30}; `none` is pandas NaN. -/
def prom (w : ℕ) (f : Frame) : Option ℚ :=
  meanOfColMeans (dropnaF (tailF w f))

/-- Station observations present at date `d` of the frame, as
`(column index, value)` pairs. -/
def obsAt (f : Frame) (d : ℕ) : List (ℕ × ℚ) :=
  match f.rows.find? (fun r => r.1 == d) with
  | none => []
  | some r => (r.2.enum.filterMap (fun c => c.2.map (fun v => (c.1, v))))

/-- Dates of the frame carrying at least one observation. -/
def datesWithData (f : Frame) : List ℕ :=
  (f.rows.filter (fun r => r.2.any (fun c => c.isSome))).map Prod.fst

/-- Spec-side reading of `latestValue(series, asOfDate)` (spec §4.3), used
to compare the code's `ultimo` against the specified behavior: the
observations at the maximum date ≤ `asOf` carrying any observation, and
`[]` (an empty result, not an error) when no such date exists. -/
def latestValueSpec (f : Frame) (asOf : ℕ) : List (ℕ × ℚ) :=
  match ((datesWithData f).filter (fun d => d ≤ asOf)).max? with
  | none => []
  | some d => obsAt f d

/-- Spec-side reading of `windowAverage(series, windowSizeInDays)`
(spec §4.3), used to compare the code's `prom` against the specified
behavior: per entity/metric, the mean of the points present among the last
`w` dated rows — missing cells are skipped per column, never dropping a
whole row. -/
def windowAverageSpec (w : ℕ) (f : Frame) : Option ℚ :=
  meanOfColMeans (tailF w f)

/-! ### Outer merge of per-station series (app.py lines 146-149)

Each element of `all_series` is a two-column frame `[Fecha, etiqueta]`;
`df_final` is built by repeated `merge(..., on="Fecha", how="outer")`. -/

/-- One per-station daily series: the station label and its
`(Fecha, value)` rows. -/
structure Series where
  name : String
  rows : List (ℕ × ℚ)
deriving DecidableEq

/-- A wide merged frame: station column labels, and rows pairing a date
with the per-column optional cells. -/
structure MFrame where
  cols : List String
  rows : List (ℕ × List (Option ℚ))
deriving DecidableEq

/-- A single series viewed as a one-column frame (`all_series[0]`). -/
def toFrame (s : Series) : MFrame :=
  ⟨[s.name], s.rows.map (fun p => (p.1, [some p.2]))⟩

/-- `df_final.merge(extra, on="Fecha", how="outer")`: existing rows gain
the new station's cell (missing where it has no row at that date); dates
present only in the new series are appended with all previous cells
missing — never interpolated. -/
def mergeOuter (f : MFrame) (s : Series) : MFrame :=
  ⟨f.cols ++ [s.name],
    f.rows.map (fun r => (r.1, r.2 ++ [List.lookup r.1 s.rows])) ++
    (s.rows.filter (fun p => decide (p.1 ∉ f.rows.map Prod.fst))).map
      (fun p => (p.1, List.replicate f.cols.length (none : Option ℚ) ++ [some p.2]))⟩

/-- The merge loop of app.py lines 146-148: start from the first series
and fold the outer merge over the rest. -/
def mergeAll : List Series → MFrame
  | [] => ⟨[], []⟩
  | s :: rest => rest.foldl mergeOuter (toFrame s)

/-- Cell of a row under a column label: first column whose label matches,
as a pandas label lookup. -/
def getCell : List String → List (Option ℚ) → String → Option ℚ
  | [], _, _ => none
  | _, [], _ => none
  | c :: cs, v :: vs, label => if c = label then v else getCell cs vs label

/-- The merged frame's cell for station `c` at date `d`: `none` when the
date row or the column is absent, or the cell is missing. -/
def getCol (f : MFrame) (c : String) (d : ℕ) : Option ℚ :=
  match f.rows.find? (fun r => r.1 == d) with
  | none => none
  | some r => getCell f.cols r.2 c

/-- The input-side cell: the value of the (first) series labelled `c` at
date `d`. -/
def seriesAt (l : List Series) (c : String) (d : ℕ) : Option ℚ :=
  match l.find? (fun s => s.name == c) with
  | none => none
  | some s => List.lookup d s.rows

/-! ### Heap model for the `inplace=True` mutation (app.py lines 137-140)

`merged = pd.concat(...).mean(axis=1).to_frame(name=etiqueta)` is indexed
by `Fecha`; `merged.reset_index(inplace=True)` then mutates that very
object instead of building a new one.  A tiny heap of reference cells
makes object identity observable. -/

/-- A `Fecha`-indexed one-column frame (the per-station `merged` before
`reset_index`). -/
structure IFrame where
  index : List ℕ
  values : List ℚ
  label : String
deriving DecidableEq

/-- The value computed by `reset_index`: the index materialized as a
leading column. -/
def resetIndexFn (f : IFrame) : List (ℕ × ℚ) := f.index.zip f.values

/-- Heap objects: indexed frames, plain column frames, and per-sensor raw
frames. -/
inductive Obj where
  | iframe : IFrame → Obj
  | rframe : List (ℕ × ℚ) → Obj
  | sframe : List (ℕ × ℚ) → Obj
deriving DecidableEq

/-- A heap of collections: reference number to object. -/
def Heap := List (ℕ × Obj)

/-- Dereference. -/
def hlookup (h : Heap) (r : ℕ) : Option Obj := List.lookup r h

/-- The reset form of a heap object: an indexed frame becomes a plain
column frame, anything else is untouched. -/
def resetObj : Obj → Obj
  | Obj.iframe f => Obj.rframe (resetIndexFn f)
  | o => o

/-- `merged.reset_index(inplace=True)` (app.py line 139): overwrite the
object stored at `r` with its reset form; no new collection is
allocated. -/
def resetIndexInplace (r : ℕ) (h : Heap) : Heap :=
  h.map (fun p => if p.1 = r then (p.1, resetObj p.2) else p)

/-! ### Station label build and parse (app.py lines 111-113 and 124-126)

Building: `f"{r['name']} – {r['locality'] or 's/n'} (id {r['location_id']})"`.
Parsing: `int(etiqueta.split("id")[-1].strip(") ").strip())`. -/

/-- Python `str.split("id")`: split on non-overlapping occurrences of the
two-character separator `"id"`, scanning left to right. -/
def splitID : List Char → List (List Char)
  | [] => [[]]
  | [c] => [[c]]
  | c1 :: c2 :: rest =>
    if c1 = 'i' ∧ c2 = 'd' then [] :: splitID rest
    else
      match splitID (c2 :: rest) with
      | [] => [[c1]]
      | h :: t => (c1 :: h) :: t

/-- Python `s.split("id")[-1]`. -/
def lastPartID (l : List Char) : List Char := (splitID l).getLastD []

/-- Python `s.strip(set)` for a decidable character set: drop the set's
characters from both ends. -/
def stripBoth (p : Char → Bool) (l : List Char) : List Char :=
  ((l.dropWhile p).reverse.dropWhile p).reverse

/-- The characters stripped by `.strip(") ")`. -/
def parenSpace (c : Char) : Bool := c = ')' || c = ' '

/-- The default whitespace stripped by `.strip()`. -/
def pyWs (c : Char) : Bool := c = ' ' || c = '\t' || c = '\n' || c = '\r'

/-- Decimal digit value of a character, `none` for non-digits. -/
def digitVal (c : Char) : Option ℕ :=
  if 48 ≤ c.toNat ∧ c.toNat ≤ 57 then some (c.toNat - 48) else none

/-- Accumulating decimal parse. -/
def parseNatAux : ℕ → List Char → Option ℕ
  | acc, [] => some acc
  | acc, c :: rest =>
    match digitVal c with
    | some d => parseNatAux (10 * acc + d) rest
    | none => none

/-- Python `int(s)` on an unsigned decimal string: at least one digit,
digits only. -/
def parseNatChars : List Char → Option ℕ
  | [] => none
  | c :: rest => parseNatAux 0 (c :: rest)

/-- Python `int(s)` including a leading minus sign. -/
def parseIntChars : List Char → Option ℤ
  | [] => none
  | c :: rest =>
    if c = '-' then (parseNatChars rest).map (fun n => -(n : ℤ))
    else (parseNatChars (c :: rest)).map (fun n => (n : ℤ))

/-- Decimal rendering of a natural number, as Python `str(n)`. -/
def renderNat (n : ℕ) : List Char :=
  if h : n < 10 then [Char.ofNat (48 + n)]
  else renderNat (n / 10) ++ [Char.ofNat (48 + n % 10)]
decreasing_by exact Nat.div_lt_self (by omega) (by omega)

/-- Decimal rendering of an integer, as Python `str(i)` in an f-string. -/
def renderInt (i : ℤ) : List Char :=
  if i < 0 then '-' :: renderNat i.natAbs else renderNat i.toNat

/-- `r['locality'] or 's/n'`: the falsy-or default for an absent or empty
locality. -/
def localityOr (l : List Char) : List Char :=
  if l = [] then [ 's', '/', 'n' ] else l

/-- The display label of app.py lines 111-113:
`f"{name} – {locality or 's/n'} (id {location_id})"`. -/
def etiqueta (name locality : List Char) (i : ℤ) : List Char :=
  name ++ [ ' ', '–', ' ' ] ++ localityOr locality ++ [ ' ', '(', 'i', 'd', ' ' ] ++ renderInt i ++ [ ')' ]

/-- The parse of app.py line 125:
`int(etiqueta.split("id")[-1].strip(") ").strip())`. -/
def parseEtiqueta (l : List Char) : Option ℤ :=
  parseIntChars (stripBoth pyWs (stripBoth parenSpace (lastPartID l)))

/-! ## Theorems -/

/-- C6: when the required API credential is absent, every fetch operation
fails immediately with the missing-credential error, with zero
`requests.get` attempts issued and no backoff sleep (no retrying). -/
theorem _get_missing_credential {α : Type} (resp : ℕ → Except String α) (retries : ℕ) :
    _get "" resp retries =
      ⟨Except.error GetErr.missingCredential, 0, []⟩ := by
  simp [_get]

/-- The retry loop under an all-failing response oracle: it issues exactly
`fuel` attempts, sleeps 1.2 after each failure, and ends with the fetch
error carrying the last attempt's cause. -/
theorem getLoop_all_fail {α : Type} (resp : ℕ → Except String α) (es : ℕ → String) :
    ∀ fuel i last, 0 < fuel →
      (∀ k, k < fuel → resp (i + k) = Except.error (es (i + k))) →
      getLoop resp fuel i last =
        ⟨Except.error (GetErr.fetch (some (es (i + fuel - 1)))), i + fuel,
          List.replicate fuel (1.2 : ℚ)⟩ := by
  intro fuel
  induction fuel with
  | zero => intro i last h; omega
  | succ n ih =>
    intro i last _ hfail
    have h0 : resp i = Except.error (es i) := by
      have := hfail 0 (Nat.succ_pos n)
      simpa using this
    rcases Nat.eq_zero_or_pos n with hn | hn
    · subst hn
      simp [getLoop, h0, List.replicate]
    · have hrec := ih (i + 1) (some (es i)) hn (fun k hk => by
        have := hfail (k + 1) (by omega)
        have harg : i + (k + 1) = i + 1 + k := by omega
        rwa [harg] at this)
      simp only [getLoop, h0]
      rw [hrec]
      have h1 : i + 1 + n - 1 = i + (n + 1) - 1 := by omega
      have h2 : i + 1 + n = i + (n + 1) := by omega
      simp [h1, h2, List.replicate_succ]

/-- C5: when every attempt fails (HTTP status ≥ 400 or transport failure),
`_get` issues exactly `retries` attempts (3 by default), sleeping the
fixed 1.2-second backoff between attempts, and then fails with the
`RuntimeError` fetch error carrying the last underlying cause. -/
theorem _get_all_fail {α : Type} (apiKey : String) (resp : ℕ → Except String α)
    (es : ℕ → String) (retries : ℕ) (hkey : apiKey ≠ "") (hret : 0 < retries)
    (hfail : ∀ k, k < retries → resp k = Except.error (es k)) :
    _get apiKey resp retries =
      ⟨Except.error (GetErr.fetch (some (es (retries - 1)))), retries,
        List.replicate retries (1.2 : ℚ)⟩ := by
  rw [_get, if_neg hkey]
  have := getLoop_all_fail resp es retries 0 none hret (fun k hk => by
    simpa using hfail k hk)
  simpa using this

/-- Witness for C5: a run with the default `retries=3` against a server
answering HTTP 500 every time. -/
theorem _get_all_fail_spot :
    _get "key" (fun _ => (Except.error "HTTP 500" : Except String ℕ)) 3 =
      ⟨Except.error (GetErr.fetch (some "HTTP 500")), 3,
        [(1.2 : ℚ), 1.2, 1.2]⟩ := by
  have h := _get_all_fail "key" (fun _ => (Except.error "HTTP 500" : Except String ℕ))
    (fun _ => "HTTP 500") 3 (by decide) (by decide) (fun k _ => rfl)
  simpa [List.replicate] using h

/-- C1: per-station daily value from sibling sensors at one date — when
both sensors carry a value the station gets their arithmetic mean, and
when one sensor has no row at that date it is simply omitted from the
mean (the other sensor's value is taken as is, no zero-filling). -/
theorem station_daily_sensor_mean (A B : List (ℕ × ℚ)) (d : ℕ) :
    (∀ a b, List.lookup d A = some a → List.lookup d B = some b →
      station_daily [A, B] d = some ((a + b) / 2)) ∧
    (∀ a, List.lookup d A = some a → List.lookup d B = none →
      station_daily [A, B] d = some a) := by
  constructor
  · intro a b ha hb
    simp [station_daily, alignRow, meanSkipna, ha, hb]
  · intro a ha hb
    simp [station_daily, alignRow, meanSkipna, ha, hb]

/-- Witness for C1: sensor values 5 and 15 on the same date average to 10,
and a date missing from the second sensor contributes the first sensor's
value alone. -/
theorem station_daily_sensor_mean_spot :
    station_daily [[(0, (5 : ℚ))], [(0, (15 : ℚ))]] 0 = some 10 ∧
    station_daily [[(0, (5 : ℚ))], []] 0 = some 5 := by
  constructor
  · have h := (station_daily_sensor_mean [(0, (5 : ℚ))] [(0, (15 : ℚ))] 0).1 5 15 rfl rfl
    norm_num at h
    exact h
  · exact (station_daily_sensor_mean [(0, (5 : ℚ))] [] 0).2 5 rfl rfl

/-- C7: for every per-sensor daily payload whose rows parse, `fetch_days`
succeeds, every timestamp of its output is the timezone-naive UTC reading
of the corresponding record's aware timestamp, and the output is sorted by
date in ascending order. -/
theorem fetch_days_sorted_naive (data : J) (rows : List (Aware × ℚ))
    (h : fetch_days_rows data = Except.ok rows) :
    fetch_days data = Except.ok (fetch_days_frame rows) ∧
    List.Pairwise (fun a b : ℤ × ℚ => a.1 ≤ b.1) (fetch_days_frame rows) ∧
    (fetch_days_frame rows).Perm
      (rows.map (fun p => (tzConvertNone p.1, p.2))) := by
  exact ⟨by simp [fetch_days, h, Except.map],
    List.sorted_insertionSort _ _, List.perm_insertionSort _ _⟩

/-- Witness for C7: a two-record payload with out-of-order aware
timestamps (the second displayed at offset +60) normalizes to naive UTC
instants sorted ascending. -/
theorem fetch_days_sorted_naive_spot :
    fetch_days (J.obj [("results", J.arr [
        J.obj [("period", J.obj [("datetimeFrom", J.obj [("utc", J.time ⟨5, 0⟩)])]),
               ("value", J.num 3)],
        J.obj [("period", J.obj [("datetimeFrom", J.obj [("utc", J.time ⟨2, 60⟩)])]),
               ("value", J.num 4)]])]) =
      Except.ok [((2 : ℤ), (4 : ℚ)), (5, 3)] := by
  have h := fetch_days_sorted_naive (J.obj [("results", J.arr [
        J.obj [("period", J.obj [("datetimeFrom", J.obj [("utc", J.time ⟨5, 0⟩)])]),
               ("value", J.num 3)],
        J.obj [("period", J.obj [("datetimeFrom", J.obj [("utc", J.time ⟨2, 60⟩)])]),
               ("value", J.num 4)]])])
      [(⟨5, 0⟩, 3), (⟨2, 60⟩, 4)] rfl
  rw [h.1]
  rfl

/-- C8 counterexample: a result record missing its expected fields does
not yield an empty sequence — `r["period"]` raises a `KeyError` that
nothing catches. -/
theorem fetch_days_malformed_raises :
    fetch_days (J.obj [("results", J.arr [J.obj [("value", J.num 1)]])]) =
      Except.error "period" := by
  rfl

/-- C8 amended: a payload whose top-level `results` field is absent, or
whose result list is empty, yields an empty canonical sequence (no error),
for both normalizers; but per-record field access is by direct indexing,
so a malformed record raises a `KeyError` instead. -/
theorem empty_results_ok (fields : List (String × J)) (pid : ℚ)
    (h : List.lookup "results" fields = none) :
    fetch_days (J.obj fields) = Except.ok [] ∧
    list_locations (J.obj fields) pid = Except.ok [] ∧
    fetch_days (J.obj (("results", J.arr []) :: fields)) = Except.ok [] ∧
    list_locations (J.obj (("results", J.arr []) :: fields)) pid = Except.ok [] := by
  refine ⟨?_, ?_, ?_, ?_⟩ <;>
    (simp only [fetch_days, fetch_days_rows, list_locations, jgetD, jget, h,
      Except.map, List.lookup]; rfl)

/-- Witness for C8 (amended): the empty JSON object and an explicitly
empty result list both normalize to "no data". -/
theorem empty_results_ok_spot :
    fetch_days (J.obj []) = Except.ok [] ∧
    list_locations (J.obj []) 2 = Except.ok [] ∧
    fetch_days (J.obj [("results", J.arr [])]) = Except.ok [] ∧
    list_locations (J.obj [("results", J.arr [])]) 2 = Except.ok [] :=
  empty_results_ok [] 2 rfl

/-- Last element of a pairwise-ordered list is an upper bound. -/
theorem pairwise_getLast_max {α : Type} (r : α → α → Prop) (hr : ∀ a, r a a) :
    ∀ (l : List α) (x : α), List.Pairwise r l → l.getLast? = some x →
      ∀ p ∈ l, r p x := by
  intro l
  induction l with
  | nil => simp
  | cons a t ih =>
    intro x hp hl p hm
    cases t with
    | nil =>
      simp only [List.getLast?_singleton, Option.some.injEq] at hl
      simp only [List.mem_singleton] at hm
      subst hl; subst hm
      exact hr p
    | cons b t2 =>
      rw [List.getLast?_cons_cons] at hl
      have hx : x ∈ b :: t2 := by
        rcases List.getLast?_eq_some_iff.mp hl with ⟨ys, hys⟩
        rw [hys]; simp
      rcases List.mem_cons.mp hm with hpa | hpt
      · subst hpa
        exact (List.pairwise_cons.mp hp).1 x hx
      · exact ih x (List.pairwise_cons.mp hp).2 hl p hpt

/-- C2 counterexample: two stations with disjoint dates — observations
exist at the query date (the series end), yet `ultimo` raises an
`IndexError` instead of returning them (or an empty result). -/
theorem ultimo_raises_on_disjoint_dates :
    ultimo ⟨2, [(1, [some 5, none]), (2, [none, some 7])]⟩ =
      Except.error "IndexError" ∧
    latestValueSpec ⟨2, [(1, [some 5, none]), (2, [none, some 7])]⟩ 2 =
      [(1, (7 : ℚ))] := by
  constructor <;> rfl

/-- C2 amended: `ultimo` only considers rows where every station has a
value (`dropna` is row-wise): it returns the cross-station mean at the
last such complete row — the maximum complete date, as the frame is
date-sorted — and when no complete row exists it raises an `IndexError`
(the script crashes) rather than returning an empty result. -/
theorem ultimo_last_complete_row (f : Frame) :
    ((dropnaF f).rows = [] → ultimo f = Except.error "IndexError") ∧
    (∀ r, (dropnaF f).rows.getLast? = some r →
      ultimo f = Except.ok (meanSkipna r.2) ∧
      (List.Pairwise (fun a b : ℕ × List (Option ℚ) => a.1 ≤ b.1) f.rows →
        ∀ p ∈ (dropnaF f).rows, p.1 ≤ r.1)) := by
  constructor
  · intro he
    simp [ultimo, he]
  · intro r hr
    refine ⟨by simp [ultimo, hr], fun hsort p hp => ?_⟩
    have hps : List.Pairwise (fun a b : ℕ × List (Option ℚ) => a.1 ≤ b.1)
        (dropnaF f).rows := List.Pairwise.filter _ hsort
    exact pairwise_getLast_max (fun a b : ℕ × List (Option ℚ) => a.1 ≤ b.1)
      (fun a => le_refl a.1) _ r hps hr p hp

/-- Witness for C2 (amended): a frame with no complete row raises, and a
frame whose last complete row is `(1, [5, 7])` yields mean 6. -/
theorem ultimo_last_complete_row_spot :
    ultimo ⟨2, [(1, [some 5, none])]⟩ = Except.error "IndexError" ∧
    ultimo ⟨2, [(1, [some 5, some 7]), (2, [some 9, none])]⟩ =
      Except.ok (some (6 : ℚ)) := by
  constructor
  · exact (ultimo_last_complete_row ⟨2, [(1, [some 5, none])]⟩).1 rfl
  · have h := ((ultimo_last_complete_row
      ⟨2, [(1, [some 5, some 7]), (2, [some 9, none])]⟩).2
      (1, [some 5, some 7]) rfl).1
    rw [h]
    simp [meanSkipna]
    norm_num

/-- C3 counterexample: with fewer rows than the window, `prom` is not the
per-column mean of the points present — a row where any station is missing
is dropped whole, discarding the other stations' points at that date.  The
spec-side reading gives (15 + 4)/2 = 9.5, the code gives (20 + 4)/2 = 12. -/
theorem prom_counts_only_complete_rows :
    prom 7 ⟨2, [(1, [some 10, none]), (2, [some 20, some 4])]⟩ = some 12 ∧
    windowAverageSpec 7 ⟨2, [(1, [some 10, none]), (2, [some 20, some 4])]⟩ =
      some (19 / 2) ∧
    (12 : ℚ) ≠ 19 / 2 := by
  refine ⟨?_, ?_, by norm_num⟩
  · simp [prom, tailF, dropnaF, meanOfColMeans, colMean, meanSkipna,
      List.range_succ, List.filter, List.filterMap]
    norm_num
  · simp [windowAverageSpec, tailF, meanOfColMeans, colMean, meanSkipna,
      List.range_succ, List.filter, List.filterMap]
    norm_num

/-- C3 amended: over a frame with at most `w` dated rows, the `w`-day
average uses all complete rows present (mean of however many complete rows
there are — no error), and when no complete row exists it yields NaN
(`none`), not an error. -/
theorem prom_short_window (w : ℕ) (f : Frame) (h : f.rows.length ≤ w) :
    prom w f = meanOfColMeans (dropnaF f) ∧
    ((dropnaF f).rows = [] → prom w f = none) := by
  have ht : tailF w f = f := by
    simp [tailF, Nat.sub_eq_zero_of_le h]
  constructor
  · rw [prom, ht]
  · intro he
    rw [prom, ht]
    simp [meanOfColMeans, colMean, he, meanSkipna]

/-- Witness for C3 (amended): a 2-row frame under window 7, and a frame
with no complete row yielding NaN. -/
theorem prom_short_window_spot :
    prom 7 ⟨2, [(1, [some 10, none]), (2, [some 20, some 4])]⟩ =
      meanOfColMeans (dropnaF ⟨2, [(1, [some 10, none]), (2, [some 20, some 4])]⟩) ∧
    prom 7 ⟨2, [(1, [some 5, none])]⟩ = none := by
  constructor
  · exact (prom_short_window 7 ⟨2, [(1, [some 10, none]), (2, [some 20, some 4])]⟩
      (by decide)).1
  · exact (prom_short_window 7 ⟨2, [(1, [some 5, none])]⟩ (by decide)).2 rfl

/-- C9 counterexample: `merged.reset_index(inplace=True)` does not produce
a new collection — the object stored at the mutated reference changes. -/
theorem reset_index_inplace_mutates :
    hlookup (resetIndexInplace 0
        [(0, Obj.iframe ⟨[1], [5], "S"⟩), (1, Obj.sframe [(1, 5)])]) 0 ≠
    hlookup [(0, Obj.iframe ⟨[1], [5], "S"⟩), (1, Obj.sframe [(1, 5)])] 0 := by
  decide

/-- C9 amended: the one in-place step of the pipeline,
`merged.reset_index(inplace=True)`, mutates exactly the merged per-station
frame it is called on: every other stored collection (in particular the
per-sensor input frames) is left unchanged, and the mutated cell holds the
reset form of its old value. -/
theorem reset_index_inplace_frame (h : Heap) (r r2 : ℕ) (hne : r2 ≠ r) :
    hlookup (resetIndexInplace r h) r2 = hlookup h r2 ∧
    hlookup (resetIndexInplace r h) r = (hlookup h r).map resetObj := by
  induction h with
  | nil => exact ⟨rfl, rfl⟩
  | cons p t ih =>
    obtain ⟨k, o⟩ := p
    have hstep : resetIndexInplace r ((k, o) :: t) =
        (if k = r then (k, resetObj o) else (k, o)) :: resetIndexInplace r t := rfl
    constructor
    · rw [hstep]
      by_cases hk : k = r
      · have e2 : (r2 == k) = false := by
          simp only [beq_eq_false_iff_ne, ne_eq]
          exact fun hh => hne (hh.trans hk)
        rw [if_pos hk]
        simp only [hlookup, List.lookup, e2]
        exact ih.1
      · rw [if_neg hk]
        by_cases h2 : r2 = k
        · subst h2
          simp [hlookup, List.lookup]
        · have e2 : (r2 == k) = false := by simp [h2]
          simp only [hlookup, List.lookup, e2]
          exact ih.1
    · rw [hstep]
      by_cases hk : k = r
      · subst hk
        rw [if_pos rfl]
        simp [hlookup, List.lookup]
      · have e2 : (r == k) = false := beq_eq_false_iff_ne.mpr (Ne.symm hk)
        rw [if_neg hk]
        simp only [hlookup, List.lookup, e2, Option.map]
        exact ih.2

/-- Witness for C9 (amended): mutating reference 0 leaves the per-sensor
frame at reference 1 unchanged. -/
theorem reset_index_inplace_frame_spot :
    hlookup (resetIndexInplace 0
        [(0, Obj.iframe ⟨[1], [5], "S"⟩), (1, Obj.sframe [(1, 5)])]) 1 =
    hlookup [(0, Obj.iframe ⟨[1], [5], "S"⟩), (1, Obj.sframe [(1, 5)])] 1 :=
  (reset_index_inplace_frame
    [(0, Obj.iframe ⟨[1], [5], "S"⟩), (1, Obj.sframe [(1, 5)])] 0 1 (by decide)).1

/-- A label absent from the column list selects no cell. -/
theorem getCell_not_mem (cs : List String) (vs : List (Option ℚ)) (c : String)
    (h : c ∉ cs) : getCell cs vs c = none := by
  induction cs generalizing vs with
  | nil => cases vs <;> rfl
  | cons c0 cs ih =>
    cases vs with
    | nil => rfl
    | cons v0 vs =>
      have hne : c0 ≠ c := fun he => h (he ▸ List.mem_cons_self c0 cs)
      simp only [getCell, if_neg hne]
      exact ih vs (fun hm => h (List.mem_cons_of_mem _ hm))

/-- Cell lookup in a frame extended by one column on the right. -/
theorem getCell_snoc (cs : List String) (vs : List (Option ℚ)) (n : String)
    (v : Option ℚ) (c : String) (h : cs.length = vs.length) :
    getCell (cs ++ [n]) (vs ++ [v]) c =
      if c ∈ cs then getCell cs vs c else if c = n then v else none := by
  induction cs generalizing vs with
  | nil =>
    have hv : vs = [] := List.length_eq_zero.mp h.symm
    subst hv
    by_cases hc : c = n
    · subst hc
      simp [getCell]
    · have hc2 : n ≠ c := fun he => hc he.symm
      simp [getCell, hc, hc2]
  | cons c0 cs ih =>
    cases vs with
    | nil => simp at h
    | cons v0 vs =>
      have h2 : cs.length = vs.length := by simpa using h
      by_cases hc : c0 = c
      · subst hc
        simp [getCell]
      · have hcc : ¬ c = c0 := fun he => hc he.symm
        simp only [List.cons_append, getCell, if_neg hc,
          List.mem_cons, hcc, false_or]
        exact ih vs h2

/-- A row of all-missing cells yields no value under any label. -/
theorem getCell_replicate (cs : List String) (c : String) :
    getCell cs (List.replicate cs.length none) c = none := by
  induction cs with
  | nil => rfl
  | cons c0 cs ih =>
    by_cases hc : c0 = c <;>
      simp [getCell, List.replicate_succ, hc, ih]

/-- `find?` by key commutes with a key-preserving row map. -/
theorem find_map_key {α β : Type} (g : (ℕ × α) → (ℕ × β)) (d : ℕ)
    (hg : ∀ r, (g r).1 = r.1) (l : List (ℕ × α)) :
    List.find? (fun r => r.1 == d) (l.map g) =
      (List.find? (fun r => r.1 == d) l).map g := by
  induction l with
  | nil => rfl
  | cons r t ih =>
    simp only [List.map_cons, List.find?, hg r]
    cases hrd : (r.1 == d) with
    | true => rfl
    | false => exact ih

/-- `find?` is unchanged by a filter that keeps every hit. -/
theorem find_filter {α : Type} (p q : α → Bool) (l : List α)
    (h : ∀ x ∈ l, p x = true → q x = true) :
    List.find? p (l.filter q) = List.find? p l := by
  induction l with
  | nil => rfl
  | cons a t ih =>
    have ht : ∀ x ∈ t, p x = true → q x = true :=
      fun x hx => h x (List.mem_cons_of_mem _ hx)
    cases hq : q a with
    | true =>
      simp only [List.filter_cons, hq, if_true, List.find?]
      cases hp : p a with
      | true => rfl
      | false => exact ih ht
    | false =>
      have hp : p a = false := by
        cases hp : p a with
        | true => exact absurd (h a (List.mem_cons_self a t) hp) (by simp [hq])
        | false => rfl
      simp only [List.filter_cons, hq, if_false, List.find?, hp]
      exact ih ht

/-- `List.lookup` is the first row found by key. -/
theorem lookup_eq_find {β : Type} (d : ℕ) (l : List (ℕ × β)) :
    List.lookup d l = (List.find? (fun r => r.1 == d) l).map Prod.snd := by
  induction l with
  | nil => rfl
  | cons r t ih =>
    obtain ⟨k, v⟩ := r
    by_cases hk : d = k
    · subst hk
      simp [List.lookup, List.find?]
    · have e1 : (d == k) = false := beq_eq_false_iff_ne.mpr hk
      have e2 : (k == d) = false := beq_eq_false_iff_ne.mpr (Ne.symm hk)
      simp only [List.lookup, e1, List.find?, e2]
      exact ih

/-- A key is present among the row keys iff `lookup` finds a value. -/
theorem lookup_isSome_iff {β : Type} (d : ℕ) (l : List (ℕ × β)) :
    (List.lookup d l).isSome = true ↔ d ∈ l.map Prod.fst := by
  induction l with
  | nil => simp [List.lookup]
  | cons r t ih =>
    obtain ⟨k, v⟩ := r
    by_cases hk : d = k
    · subst hk
      simp [List.lookup]
    · have e1 : (d == k) = false := beq_eq_false_iff_ne.mpr hk
      simp only [List.lookup, e1, List.map_cons, List.mem_cons]
      rw [ih]
      simp [hk]

/-- Characterization of one outer-merge step: the new station's column
reads off its own series; every other column is unchanged.  Dates only in
the new series enter with all previous cells missing. -/
theorem getCol_mergeOuter (f : MFrame) (s : Series)
    (hlen : ∀ r ∈ f.rows, r.2.length = f.cols.length) (c : String) (d : ℕ) :
    getCol (mergeOuter f s) c d =
      if c = s.name ∧ c ∉ f.cols then List.lookup d s.rows
      else getCol f c d := by
  cases hf : List.find? (fun r => r.1 == d) f.rows with
  | some r =>
    have hr1 : r.1 = d := by simpa using List.find?_some hf
    have hmem : r ∈ f.rows := List.mem_of_find?_eq_some hf
    have hfound : List.find? (fun rr => rr.1 == d) (mergeOuter f s).rows =
        some (r.1, r.2 ++ [List.lookup r.1 s.rows]) := by
      show List.find? _ (List.map _ f.rows ++ _) = _
      rw [List.find?_append,
        find_map_key (fun r => (r.1, r.2 ++ [List.lookup r.1 s.rows])) d
          (fun _ => rfl) f.rows, hf]
      rfl
    simp only [getCol, hfound]
    show getCell (f.cols ++ [s.name]) (r.2 ++ [List.lookup r.1 s.rows]) c = _
    rw [getCell_snoc _ _ _ _ _ (hlen r hmem).symm]
    by_cases hc : c ∈ f.cols
    · rw [if_pos hc, if_neg (fun hcc => hcc.2 hc)]
      simp [getCol, hf]
    · rw [if_neg hc]
      by_cases hn : c = s.name
      · rw [if_pos hn, if_pos ⟨hn, hc⟩, hr1]
      · rw [if_neg hn, if_neg (fun hcc => hn hcc.1)]
        simp [getCol, hf, getCell_not_mem _ _ _ hc]
  | none =>
    have hnotmem : d ∉ f.rows.map Prod.fst := by
      intro hd
      rcases List.mem_map.mp hd with ⟨r, hrmem, hr1⟩
      have := List.find?_eq_none.mp hf r hrmem
      simp [hr1] at this
    have hgf : getCol f c d = none := by simp [getCol, hf]
    have hrows : List.find? (fun rr => rr.1 == d) (mergeOuter f s).rows =
        (List.find? (fun rr => rr.1 == d) s.rows).map
          (fun p => (p.1, List.replicate f.cols.length (none : Option ℚ) ++ [some p.2])) := by
      show List.find? _ (List.map _ f.rows ++ _) = _
      rw [List.find?_append,
        find_map_key (fun r => (r.1, r.2 ++ [List.lookup r.1 s.rows])) d
          (fun _ => rfl) f.rows, hf,
        find_map_key (fun p =>
          (p.1, List.replicate f.cols.length (none : Option ℚ) ++ [some p.2])) d
          (fun _ => rfl),
        find_filter _ _ _ (fun x hx hxd => by
          have hx1 : x.1 = d := by simpa using hxd
          simp [hx1, hnotmem])]
      rfl
    cases hs : List.find? (fun rr => rr.1 == d) s.rows with
    | some p2 =>
      have hlook : List.lookup d s.rows = some p2.2 := by
        rw [lookup_eq_find, hs]; rfl
      simp only [getCol, hrows, hs, Option.map_some]
      show getCell (f.cols ++ [s.name])
        (List.replicate f.cols.length none ++ [some p2.2]) c = _
      rw [getCell_snoc _ _ _ _ _ (by simp)]
      by_cases hc : c ∈ f.cols
      · rw [if_pos hc, if_neg (fun hcc => hcc.2 hc)]
        simp [hf, getCell_replicate]
      · rw [if_neg hc]
        by_cases hn : c = s.name
        · rw [if_pos hn, if_pos ⟨hn, hc⟩, hlook]
        · rw [if_neg hn, if_neg (fun hcc => hn hcc.1)]
          simp [hf]
    | none =>
      have hlook : List.lookup d s.rows = none := by
        rw [lookup_eq_find, hs]; rfl
      simp only [getCol, hrows, hs, Option.map_none]
      by_cases hcc : c = s.name ∧ c ∉ f.cols <;> simp [hcc, hlook, hf]

/-- A key-preserving row map leaves the key column unchanged. -/
theorem map_fst_key_map {α β : Type} (g : (ℕ × α) → (ℕ × β))
    (hg : ∀ r, (g r).1 = r.1) (l : List (ℕ × α)) :
    (l.map g).map Prod.fst = l.map Prod.fst := by
  induction l with
  | nil => rfl
  | cons r t ih => simp [hg, ih]

/-- One outer-merge step preserves the row-width invariant. -/
theorem mergeOuter_hlen (f : MFrame) (s : Series)
    (hlen : ∀ r ∈ f.rows, r.2.length = f.cols.length) :
    ∀ r ∈ (mergeOuter f s).rows, r.2.length = (mergeOuter f s).cols.length := by
  intro r hr
  show r.2.length = (f.cols ++ [s.name]).length
  rcases List.mem_append.mp hr with hl | hr2
  · rcases List.mem_map.mp hl with ⟨r0, hr0, he⟩
    simp [← he, hlen r0 hr0]
  · rcases List.mem_map.mp hr2 with ⟨p, _, he⟩
    simp [← he]

/-- The dates of a merged frame are the union of the dates merged. -/
theorem mergeOuter_keys (f : MFrame) (s : Series) (d : ℕ) :
    d ∈ (mergeOuter f s).rows.map Prod.fst ↔
      d ∈ f.rows.map Prod.fst ∨ d ∈ s.rows.map Prod.fst := by
  have hsplit : (mergeOuter f s).rows.map Prod.fst =
      f.rows.map Prod.fst ++
        (s.rows.filter (fun p => decide (p.1 ∉ f.rows.map Prod.fst))).map Prod.fst := by
    show (List.map _ _ ++ List.map _ _).map Prod.fst = _
    rw [List.map_append,
      map_fst_key_map (fun r => (r.1, r.2 ++ [List.lookup r.1 s.rows])) (fun _ => rfl),
      map_fst_key_map (fun p =>
        (p.1, List.replicate f.cols.length (none : Option ℚ) ++ [some p.2])) (fun _ => rfl)]
  rw [hsplit, List.mem_append]
  constructor
  · rintro (hl | hr)
    · exact Or.inl hl
    · rcases List.mem_map.mp hr with ⟨p, hpf, he⟩
      exact Or.inr (List.mem_map.mpr ⟨p, (List.mem_filter.mp hpf).1, he⟩)
  · rintro (hl | hr)
    · exact Or.inl hl
    · by_cases hf : d ∈ f.rows.map Prod.fst
      · exact Or.inl hf
      · rcases List.mem_map.mp hr with ⟨p, hps, he⟩
        refine Or.inr (List.mem_map.mpr ⟨p, List.mem_filter.mpr ⟨hps, ?_⟩, he⟩)
        simp [he, hf]

/-- Merging the remaining series onto an accumulated frame that already
faithfully represents the processed series yields a frame faithfully
representing all of them. -/
theorem mergeAll_fold (rest : List Series) :
    ∀ (f : MFrame) (done : List Series),
      f.cols = done.map Series.name →
      (∀ r ∈ f.rows, r.2.length = f.cols.length) →
      (∀ d, d ∈ f.rows.map Prod.fst ↔ ∃ s ∈ done, d ∈ s.rows.map Prod.fst) →
      (∀ c d, getCol f c d = seriesAt done c d) →
      ((done ++ rest).map Series.name).Nodup →
      ((rest.foldl mergeOuter f).cols = (done ++ rest).map Series.name ∧
       (∀ d, d ∈ (rest.foldl mergeOuter f).rows.map Prod.fst ↔
         ∃ s ∈ done ++ rest, d ∈ s.rows.map Prod.fst) ∧
       (∀ c d, getCol (rest.foldl mergeOuter f) c d = seriesAt (done ++ rest) c d)) := by
  induction rest with
  | nil =>
    intro f done h1 _ h3 h4 _
    simp only [List.foldl_nil, List.append_nil]
    exact ⟨h1, h3, h4⟩
  | cons s rest ih =>
    intro f done h1 h2 h3 h4 h5
    have hassoc : done ++ s :: rest = (done ++ [s]) ++ rest := by simp
    have hsnotdone : s.name ∉ done.map Series.name := by
      intro hmem
      rw [List.map_append] at h5
      have hdisj := (List.nodup_append.mp h5).2.2
      exact hdisj hmem (by simp)
    have hcols : (mergeOuter f s).cols = (done ++ [s]).map Series.name := by
      show f.cols ++ [s.name] = _
      simp [h1]
    have hdates : ∀ d, d ∈ (mergeOuter f s).rows.map Prod.fst ↔
        ∃ s2 ∈ done ++ [s], d ∈ s2.rows.map Prod.fst := by
      intro d
      rw [mergeOuter_keys, h3 d]
      constructor
      · rintro (⟨s2, hs2, hd⟩ | hd)
        · exact ⟨s2, by simp [hs2], hd⟩
        · exact ⟨s, by simp, hd⟩
      · rintro ⟨s2, hs2, hd⟩
        rcases List.mem_append.mp hs2 with hs2d | hs2s
        · exact Or.inl ⟨s2, hs2d, hd⟩
        · have : s2 = s := by simpa using hs2s
          subst this
          exact Or.inr hd
    have hget : ∀ c d, getCol (mergeOuter f s) c d = seriesAt (done ++ [s]) c d := by
      intro c d
      rw [getCol_mergeOuter f s h2]
      by_cases hcn : c = s.name
      · have hnotcols : c ∉ f.cols := by
          rw [h1, hcn]
          exact hsnotdone
        rw [if_pos ⟨hcn, hnotcols⟩]
        have hdone : List.find? (fun x => x.name == c) done = none :=
          List.find?_eq_none.mpr (fun x hx hbeq => by
            refine hsnotdone (List.mem_map.mpr ⟨x, hx, ?_⟩)
            rw [← hcn]
            simpa using hbeq)
        have hsc : (s.name == c) = true := by simp [hcn]
        simp [seriesAt, List.find?_append, hdone, List.find?, hsc]
      · rw [if_neg (fun hcc => hcn hcc.1), h4]
        cases hfd : List.find? (fun x => x.name == c) done with
        | some s2 => simp [seriesAt, List.find?_append, hfd]
        | none =>
          have hs2 : (s.name == c) = false := beq_eq_false_iff_ne.mpr (Ne.symm hcn)
          simp [seriesAt, List.find?_append, hfd, List.find?, hs2]
    have := ih (mergeOuter f s) (done ++ [s]) hcols (mergeOuter_hlen f s h2)
      hdates hget (by rwa [← hassoc])
    rw [← hassoc] at this
    exact this

/-- The merged frame of app.py lines 146-148 is exactly the series list,
read back by station label and date. -/
theorem mergeAll_spec (l : List Series) (hn : (l.map Series.name).Nodup) :
    (mergeAll l).cols = l.map Series.name ∧
    (∀ d, d ∈ (mergeAll l).rows.map Prod.fst ↔ ∃ s ∈ l, d ∈ s.rows.map Prod.fst) ∧
    (∀ c d, getCol (mergeAll l) c d = seriesAt l c d) := by
  cases l with
  | nil => exact ⟨rfl, by simp [mergeAll], fun c d => rfl⟩
  | cons s rest =>
    have hfold := mergeAll_fold rest (toFrame s) [s] rfl
      (by
        intro r hr
        rcases List.mem_map.mp hr with ⟨p, _, he⟩
        simp [← he, toFrame])
      (by
        intro d
        show d ∈ (List.map _ s.rows).map Prod.fst ↔ _
        rw [map_fst_key_map (fun p => (p.1, [some p.2])) (fun _ => rfl)]
        simp)
      (by
        intro c d
        cases hs : List.find? (fun r => r.1 == d) s.rows with
        | some r =>
          have hfr : List.find? (fun rr => rr.1 == d) (toFrame s).rows =
              some (r.1, [some r.2]) := by
            show List.find? _ (List.map _ s.rows) = _
            rw [find_map_key (fun p => (p.1, [some p.2])) d (fun _ => rfl), hs]
            rfl
          have hlook : List.lookup d s.rows = some r.2 := by
            rw [lookup_eq_find, hs]; rfl
          simp only [getCol, hfr]
          show getCell [s.name] [some r.2] c = seriesAt [s] c d
          by_cases hcn : s.name = c
          · simp [getCell, seriesAt, List.find?, hcn, hlook]
          · have hsc : (s.name == c) = false := beq_eq_false_iff_ne.mpr hcn
            simp [getCell, seriesAt, List.find?, hcn, hsc]
        | none =>
          have hfr : List.find? (fun rr => rr.1 == d) (toFrame s).rows = none := by
            show List.find? _ (List.map _ s.rows) = _
            rw [find_map_key (fun p => (p.1, [some p.2])) d (fun _ => rfl), hs]
            rfl
          have hlook : List.lookup d s.rows = none := by
            rw [lookup_eq_find, hs]; rfl
          simp only [getCol, hfr]
          by_cases hcn : s.name = c
          · simp [seriesAt, List.find?, hcn, hlook]
          · have hsc : (s.name == c) = false := beq_eq_false_iff_ne.mpr hcn
            simp [seriesAt, List.find?, hsc])
      (by simpa using hn)
    simpa [mergeAll] using hfold

/-- `seriesAt` depends only on the set of series when labels are unique. -/
theorem seriesAt_perm (l l2 : List Series) (hp : l.Perm l2)
    (hn : (l.map Series.name).Nodup) (c : String) (d : ℕ) :
    seriesAt l c d = seriesAt l2 c d := by
  have hn2 : (l2.map Series.name).Nodup := (hp.map Series.name).nodup hn
  cases hfind : List.find? (fun s => s.name == c) l with
  | none =>
    have hnotin : ∀ x ∈ l2, ¬(x.name == c) = true := fun x hx =>
      List.find?_eq_none.mp hfind x (hp.mem_iff.mpr hx)
    simp [seriesAt, hfind, List.find?_eq_none.mpr hnotin]
  | some s =>
    have hsx : s ∈ l2 := hp.mem_iff.mp (List.mem_of_find?_eq_some hfind)
    have hname : s.name = c := by simpa using List.find?_some hfind
    cases hfind2 : List.find? (fun s2 => s2.name == c) l2 with
    | none =>
      exact absurd (List.find?_eq_none.mp hfind2 s hsx) (by simp [hname])
    | some s2 =>
      have hs2 : s2 ∈ l2 := List.mem_of_find?_eq_some hfind2
      have hname2 : s2.name = c := by simpa using List.find?_some hfind2
      have heq : s = s2 :=
        List.inj_on_of_nodup_map hn2 hsx hs2 (by rw [hname, hname2])
      simp [seriesAt, hfind, hfind2, heq]

/-- With unique labels, a station's column reads its own series. -/
theorem seriesAt_self (l : List Series) (s : Series) (hs : s ∈ l)
    (hn : (l.map Series.name).Nodup) (d : ℕ) :
    seriesAt l s.name d = List.lookup d s.rows := by
  cases hfind : List.find? (fun x => x.name == s.name) l with
  | none => exact absurd (List.find?_eq_none.mp hfind s hs) (by simp)
  | some s2 =>
    have hs2 : s2 ∈ l := List.mem_of_find?_eq_some hfind
    have hname : s2.name = s.name := by simpa using List.find?_some hfind
    have heq : s2 = s := List.inj_on_of_nodup_map hn hs2 hs hname
    simp [seriesAt, hfind, heq]

/-- C4: the repeated outer merge on `Fecha` behaves as a full outer join
determined by the set of input series alone — for any reordering
(commutativity and associativity of the merge), the merged frame has the
same columns up to order, the same date set, and the same cell for every
station and date; and a date present in the frame but absent from a
station's own series leaves that station's cell missing, never
interpolated. -/
theorem mergeAll_perm_invariant (l l2 : List Series) (hp : l.Perm l2)
    (hn : (l.map Series.name).Nodup) :
    (mergeAll l).cols.Perm (mergeAll l2).cols ∧
    (∀ d, d ∈ (mergeAll l).rows.map Prod.fst ↔
      d ∈ (mergeAll l2).rows.map Prod.fst) ∧
    (∀ c d, getCol (mergeAll l) c d = getCol (mergeAll l2) c d) ∧
    (∀ s ∈ l, ∀ d, List.lookup d s.rows = none →
      getCol (mergeAll l) s.name d = none) := by
  have hn2 : (l2.map Series.name).Nodup := (hp.map Series.name).nodup hn
  obtain ⟨hc1, hd1, hg1⟩ := mergeAll_spec l hn
  obtain ⟨hc2, hd2, hg2⟩ := mergeAll_spec l2 hn2
  refine ⟨?_, ?_, ?_, ?_⟩
  · rw [hc1, hc2]
    exact hp.map _
  · intro d
    rw [hd1 d, hd2 d]
    constructor
    · rintro ⟨s, hs, hd⟩
      exact ⟨s, hp.mem_iff.mp hs, hd⟩
    · rintro ⟨s, hs, hd⟩
      exact ⟨s, hp.mem_iff.mpr hs, hd⟩
  · intro c d
    rw [hg1 c d, hg2 c d, seriesAt_perm l l2 hp hn]
  · intro s hs d hl
    rw [hg1 s.name d, seriesAt_self l s hs hn, hl]

/-- Witness for C4: two single-date stations merged in both orders agree
on station B's cell at date 2, and station A's cell at date 2 (a date A
does not carry) is missing. -/
theorem mergeAll_perm_invariant_spot :
    getCol (mergeAll [⟨"A", [(1, 5)]⟩, ⟨"B", [(2, 7)]⟩]) "B" 2 =
      getCol (mergeAll [⟨"B", [(2, 7)]⟩, ⟨"A", [(1, 5)]⟩]) "B" 2 ∧
    getCol (mergeAll [⟨"A", [(1, 5)]⟩, ⟨"B", [(2, 7)]⟩]) "A" 2 = none := by
  constructor
  · exact (mergeAll_perm_invariant [⟨"A", [(1, 5)]⟩, ⟨"B", [(2, 7)]⟩]
      [⟨"B", [(2, 7)]⟩, ⟨"A", [(1, 5)]⟩] (List.Perm.swap _ _ _) (by simp)).2.2.1 "B" 2
  · exact (mergeAll_perm_invariant [⟨"A", [(1, 5)]⟩, ⟨"B", [(2, 7)]⟩]
      [⟨"B", [(2, 7)]⟩, ⟨"A", [(1, 5)]⟩] (List.Perm.swap _ _ _) (by simp)).2.2.2
      ⟨"A", [(1, 5)]⟩ (by simp) 2 rfl

/-- `split("id")` never yields an empty piece list. -/
theorem splitID_ne_nil (l : List Char) : splitID l ≠ [] := by
  cases l with
  | nil => simp [splitID]
  | cons c1 t =>
    cases t with
    | nil => simp [splitID]
    | cons c2 rest =>
      by_cases h : c1 = 'i' ∧ c2 = 'd'
      · simp [splitID, h]
      · simp only [splitID, if_neg h]
        cases splitID (c2 :: rest) <;> simp

/-- `getLastD` ignores its default on a nonempty list. -/
theorem getLastD_of_ne_nil {α : Type} (l : List α) (a b : α) (h : l ≠ []) :
    l.getLastD a = l.getLastD b := by
  rcases List.eq_nil_or_concat l with rfl | ⟨ys, x, rfl⟩
  · exact absurd rfl h
  · simp [List.concat_eq_append, List.getLastD_eq_getLast?, List.getLast?_concat]

/-- The empty-prefix case of `lastPartID_append`. -/
theorem lastPartID_append_zero (t : List Char) :
    2 ≤ (splitID ([] ++ 'i' :: 'd' :: t)).length ∧
    lastPartID ([] ++ 'i' :: 'd' :: t) = lastPartID t := by
  have hsp : splitID ([] ++ 'i' :: 'd' :: t) = [] :: splitID t := by
    simp [splitID]
  constructor
  · rw [hsp]
    have := List.length_pos.mpr (splitID_ne_nil t)
    simp
    omega
  · show lastPartID ([] ++ 'i' :: 'd' :: t) = lastPartID t
    rw [lastPartID, hsp, List.getLastD_cons]
    rfl

/-- The last piece of `split("id")` is blind to anything left of a
separator occurrence: the scan always fires on that occurrence. -/
theorem lastPartID_append : ∀ (n : ℕ) (u t : List Char), u.length ≤ n →
    2 ≤ (splitID (u ++ 'i' :: 'd' :: t)).length ∧
    lastPartID (u ++ 'i' :: 'd' :: t) = lastPartID t := by
  intro n
  induction n with
  | zero =>
    intro u t hu
    have hu0 : u = [] := List.length_eq_zero.mp (Nat.le_zero.mp hu)
    subst hu0
    exact lastPartID_append_zero t
  | succ n ih =>
    intro u t hu
    cases u with
    | nil => exact lastPartID_append_zero t
    | cons c1 u1 =>
      cases u1 with
      | nil =>
        have hcond : ¬(c1 = 'i' ∧ 'i' = 'd') := by simp
        have hsp : splitID ([c1] ++ 'i' :: 'd' :: t) = [c1] :: splitID t := by
          show splitID (c1 :: 'i' :: 'd' :: t) = _
          simp [splitID, hcond]
        constructor
        · rw [hsp]
          have := List.length_pos.mpr (splitID_ne_nil t)
          simp
          omega
        · show lastPartID _ = _
          rw [lastPartID, hsp, List.getLastD_cons,
            getLastD_of_ne_nil _ _ [] (splitID_ne_nil t)]
          rfl
      | cons c2 u2 =>
        by_cases hcond : c1 = 'i' ∧ c2 = 'd'
        · obtain ⟨h1, h2⟩ := hcond
          subst h1
          subst h2
          have hih := ih u2 t (by simp at hu; omega)
          have hsp : splitID (('i' :: 'd' :: u2) ++ 'i' :: 'd' :: t) =
              [] :: splitID (u2 ++ 'i' :: 'd' :: t) := by
            simp [splitID]
          constructor
          · rw [hsp]
            simp
            omega
          · show lastPartID _ = _
            rw [lastPartID, hsp, List.getLastD_cons]
            exact hih.2
        · have hih := ih (c2 :: u2) t (by simp at hu ⊢; omega)
          obtain ⟨hlen2, hlast⟩ := hih
          cases hspl : splitID ((c2 :: u2) ++ 'i' :: 'd' :: t) with
          | nil => exact absurd hspl (splitID_ne_nil _)
          | cons h0 t2 =>
            have ht2 : t2 ≠ [] := by
              rw [hspl] at hlen2
              intro he
              rw [he] at hlen2
              simp at hlen2
            have hsp : splitID ((c1 :: c2 :: u2) ++ 'i' :: 'd' :: t) =
                (c1 :: h0) :: t2 := by
              show splitID (c1 :: c2 :: (u2 ++ 'i' :: 'd' :: t)) = _
              simp only [splitID, if_neg hcond]
              have : splitID (c2 :: (u2 ++ 'i' :: 'd' :: t)) = h0 :: t2 := hspl
              rw [this]
            rw [lastPartID, hspl, List.getLastD_cons] at hlast
            constructor
            · rw [hsp]
              have := List.length_pos.mpr ht2
              simp
              omega
            · show lastPartID _ = _
              rw [lastPartID, hsp, List.getLastD_cons,
                getLastD_of_ne_nil _ _ h0 ht2]
              exact hlast

/-- A string without the letter `i` is a single `split("id")` piece. -/
theorem splitID_no_i (l : List Char) (h : 'i' ∉ l) : splitID l = [l] := by
  induction l with
  | nil => rfl
  | cons c1 t ih =>
    cases t with
    | nil => rfl
    | cons c2 rest =>
      have hc1 : c1 ≠ 'i' := fun he => h (he ▸ List.mem_cons_self c1 _)
      have hcond : ¬(c1 = 'i' ∧ c2 = 'd') := fun hc => hc1 hc.1
      have ht : 'i' ∉ c2 :: rest := fun hm => h (List.mem_cons_of_mem _ hm)
      simp only [splitID, if_neg hcond, ih ht]

/-- Every character of `str(n)` is a decimal digit. -/
theorem renderNat_digits (n : ℕ) :
    ∀ c ∈ renderNat n, 48 ≤ c.toNat ∧ c.toNat ≤ 57 := by
  induction n using Nat.strong_induction_on with
  | _ n ih =>
    have hdec : ∀ m, m < 10 → (Char.ofNat (48 + m)).toNat = 48 + m := by decide
    rw [renderNat]
    by_cases h : n < 10
    · rw [dif_pos h]
      intro c hc
      have : c = Char.ofNat (48 + n) := by simpa using hc
      rw [this, hdec n h]
      omega
    · rw [dif_neg h]
      intro c hc
      rcases List.mem_append.mp hc with hc1 | hc2
      · exact ih (n / 10) (Nat.div_lt_self (by omega) (by omega)) c hc1
      · have : c = Char.ofNat (48 + n % 10) := by simpa using hc2
        rw [this, hdec (n % 10) (Nat.mod_lt _ (by omega))]
        omega

/-- `str(n)` is never empty. -/
theorem renderNat_ne_nil (n : ℕ) : renderNat n ≠ [] := by
  rw [renderNat]
  by_cases h : n < 10
  · rw [dif_pos h]
    simp
  · rw [dif_neg h]
    simp

/-- Digit characters are not stripped, signed, or the letter `i`. -/
theorem digit_plain (c : Char) (h : 48 ≤ c.toNat ∧ c.toNat ≤ 57) :
    parenSpace c = false ∧ pyWs c = false ∧ c ≠ '-' ∧ c ≠ 'i' := by
  refine ⟨?_, ?_, ?_, ?_⟩
  · simp only [parenSpace, Bool.or_eq_false_iff, decide_eq_false_iff_not]
    constructor
    · intro he
      rw [he] at h
      revert h
      decide
    · intro he
      rw [he] at h
      revert h
      decide
  · simp only [pyWs, Bool.or_eq_false_iff, decide_eq_false_iff_not]
    refine ⟨⟨⟨?_, ?_⟩, ?_⟩, ?_⟩ <;>
      (intro he; rw [he] at h; revert h; decide)
  · intro he
    rw [he] at h
    revert h
    decide
  · intro he
    rw [he] at h
    revert h
    decide

/-- `str(i)` decomposes with a digit as its final character. -/
theorem renderInt_concat (i : ℤ) :
    ∃ dinit c, renderInt i = dinit ++ [c] ∧ 48 ≤ c.toNat ∧ c.toNat ≤ 57 := by
  have hnat : ∀ m : ℕ, ∃ dinit c, renderNat m = dinit ++ [c] ∧
      48 ≤ c.toNat ∧ c.toNat ≤ 57 := by
    intro m
    rcases List.eq_nil_or_concat (renderNat m) with h | ⟨ys, x, h⟩
    · exact absurd h (renderNat_ne_nil m)
    · rw [List.concat_eq_append] at h
      refine ⟨ys, x, h, renderNat_digits m x ?_⟩
      rw [h]
      simp
  rw [renderInt]
  by_cases h : i < 0
  · rw [if_pos h]
    obtain ⟨d, c, hd, hc⟩ := hnat i.natAbs
    exact ⟨'-' :: d, c, by simp [hd], hc⟩
  · rw [if_neg h]
    exact hnat i.toNat

/-- `str(i)` starts with a character no strip touches. -/
theorem renderInt_head (i : ℤ) :
    ∃ c0 dtail, renderInt i = c0 :: dtail ∧
      parenSpace c0 = false ∧ pyWs c0 = false := by
  rw [renderInt]
  by_cases h : i < 0
  · rw [if_pos h]
    exact ⟨'-', renderNat i.natAbs, rfl, by decide, by decide⟩
  · rw [if_neg h]
    cases hr : renderNat i.toNat with
    | nil => exact absurd hr (renderNat_ne_nil _)
    | cons c r =>
      have hd := renderNat_digits i.toNat c (hr ▸ List.mem_cons_self c r)
      exact ⟨c, r, rfl, (digit_plain c hd).1, (digit_plain c hd).2.1⟩

/-- The letter `i` does not occur in `str(i)`. -/
theorem renderInt_no_i (i : ℤ) : 'i' ∉ renderInt i := by
  intro hm
  rw [renderInt] at hm
  by_cases h : i < 0
  · rw [if_pos h] at hm
    rcases List.mem_cons.mp hm with he | hm2
    · revert he
      decide
    · exact (digit_plain 'i' (renderNat_digits i.natAbs 'i' hm2)).2.2.2 rfl
  · rw [if_neg h] at hm
    exact (digit_plain 'i' (renderNat_digits i.toNat 'i' hm)).2.2.2 rfl

/-- Stripping the configured characters from both ends of a wrapped core
that starts and ends with untouched characters recovers the core. -/
theorem stripBoth_wrap (p : Char → Bool) (dg : List Char) (a b : Char)
    (hpa : p a = true) (hpb : p b = true)
    (c0 : Char) (dtail : List Char) (hdg : dg = c0 :: dtail) (hc0 : p c0 = false)
    (c1 : Char) (dinit : List Char) (hdg2 : dg = dinit ++ [c1]) (hc1 : p c1 = false) :
    stripBoth p (a :: (dg ++ [b])) = dg := by
  rw [stripBoth]
  have h1 : List.dropWhile p (a :: (dg ++ [b])) = dg ++ [b] := by
    rw [List.dropWhile_cons]
    rw [if_pos hpa, hdg]
    rw [List.cons_append, List.dropWhile_cons, if_neg (by simp [hc0])]
  rw [h1]
  have h2 : (dg ++ [b]).reverse = b :: dg.reverse := by simp
  rw [h2, List.dropWhile_cons, if_pos hpb]
  have h3 : dg.reverse = c1 :: dinit.reverse := by
    rw [hdg2]
    simp
  rw [h3, List.dropWhile_cons, if_neg (by simp [hc1])]
  rw [← h3]
  simp

/-- Stripping touches nothing on a string whose two ends are clean. -/
theorem stripBoth_noop (p : Char → Bool) (dg : List Char)
    (c0 : Char) (dtail : List Char) (hdg : dg = c0 :: dtail) (hc0 : p c0 = false)
    (c1 : Char) (dinit : List Char) (hdg2 : dg = dinit ++ [c1]) (hc1 : p c1 = false) :
    stripBoth p dg = dg := by
  rw [stripBoth]
  have h1 : List.dropWhile p dg = dg := by
    rw [hdg, List.dropWhile_cons, if_neg (by simp [hc0])]
  rw [h1]
  have h3 : dg.reverse = c1 :: dinit.reverse := by
    rw [hdg2]
    simp
  rw [h3, List.dropWhile_cons, if_neg (by simp [hc1])]
  rw [← h3]
  simp

/-- Accumulating parse over a concatenation. -/
theorem parseNatAux_append (acc : ℕ) (l1 l2 : List Char) :
    parseNatAux acc (l1 ++ l2) =
      match parseNatAux acc l1 with
      | some acc2 => parseNatAux acc2 l2
      | none => none := by
  induction l1 generalizing acc with
  | nil => rfl
  | cons c r ih =>
    cases hd : digitVal c with
    | some d => simp [parseNatAux, hd, ih]
    | none => simp [parseNatAux, hd]

/-- Parsing the decimal rendering of `n` appends `n` to the accumulator. -/
theorem parseNatAux_renderNat (n : ℕ) :
    ∀ acc, parseNatAux acc (renderNat n) =
      some (acc * 10 ^ (renderNat n).length + n) := by
  induction n using Nat.strong_induction_on with
  | _ n ih =>
    intro acc
    have hdig : ∀ m, m < 10 → digitVal (Char.ofNat (48 + m)) = some m := by decide
    rw [renderNat]
    by_cases h : n < 10
    · rw [dif_pos h]
      simp [parseNatAux, hdig n h]
      omega
    · rw [dif_neg h]
      rw [parseNatAux_append, ih (n / 10) (Nat.div_lt_self (by omega) (by omega)) acc]
      have hm : n % 10 < 10 := Nat.mod_lt _ (by omega)
      simp only [parseNatAux, hdig _ hm, List.length_append, List.length_cons,
        List.length_nil, Nat.zero_add, pow_succ, Option.some.injEq]
      calc 10 * (acc * 10 ^ (renderNat (n / 10)).length + n / 10) + n % 10
          = acc * (10 ^ (renderNat (n / 10)).length * 10) +
              (10 * (n / 10) + n % 10) := by ring
        _ = acc * (10 ^ (renderNat (n / 10)).length * 10) + n := by
            rw [Nat.div_add_mod]

/-- Python `int(str(n)) == n` for naturals. -/
theorem parseNatChars_renderNat (n : ℕ) :
    parseNatChars (renderNat n) = some n := by
  cases hr : renderNat n with
  | nil => exact absurd hr (renderNat_ne_nil n)
  | cons c r =>
    show parseNatAux 0 (c :: r) = some n
    rw [← hr, parseNatAux_renderNat n 0]
    simp

/-- Python `int(str(i)) == i` for integers. -/
theorem parseIntChars_renderInt (i : ℤ) : parseIntChars (renderInt i) = some i := by
  by_cases h : i < 0
  · rw [renderInt, if_pos h]
    show parseIntChars ('-' :: renderNat i.natAbs) = some i
    simp [parseIntChars, parseNatChars_renderNat]
    rw [abs_of_neg h]
    ring
  · rw [renderInt, if_neg h]
    cases hr : renderNat i.toNat with
    | nil => exact absurd hr (renderNat_ne_nil _)
    | cons c r =>
      have hd := renderNat_digits i.toNat c (hr ▸ List.mem_cons_self c r)
      have hc : ¬ c = '-' := (digit_plain c hd).2.2.1
      show parseIntChars (c :: r) = some i
      simp only [parseIntChars, if_neg hc]
      rw [← hr, parseNatChars_renderNat]
      simp [Int.toNat_of_nonneg (le_of_not_lt h)]

/-- C10: building the station label
`f"{name} – {locality or 's/n'} (id {location_id})"` and parsing it back
with `int(label.split("id")[-1].strip(") ").strip())` recovers exactly the
original id, for every name and locality string and every integer id. -/
theorem parseEtiqueta_roundtrip (name locality : List Char) (i : ℤ) :
    parseEtiqueta (etiqueta name locality i) = some i := by
  obtain ⟨c0, dtail, hhead, hps0, hws0⟩ := renderInt_head i
  obtain ⟨dinit, c1, hconc, hd1⟩ := renderInt_concat i
  have hps1 : parenSpace c1 = false := (digit_plain c1 hd1).1
  have hws1 : pyWs c1 = false := (digit_plain c1 hd1).2.1
  have hshape : etiqueta name locality i =
      (name ++ [' ', '–', ' '] ++ localityOr locality ++ [' ', '(']) ++
        ('i' :: 'd' :: (' ' :: (renderInt i ++ [')']))) := by
    simp [etiqueta]
  rw [parseEtiqueta, hshape,
    (lastPartID_append
      ((name ++ [' ', '–', ' '] ++ localityOr locality ++ [' ', '(']).length)
      (name ++ [' ', '–', ' '] ++ localityOr locality ++ [' ', '('])
      (' ' :: (renderInt i ++ [')'])) le_rfl).2]
  have hnoI : 'i' ∉ ' ' :: (renderInt i ++ [')']) := by
    intro hm
    rcases List.mem_cons.mp hm with he | hm2
    · revert he
      decide
    · rcases List.mem_append.mp hm2 with hm3 | hm4
      · exact renderInt_no_i i hm3
      · revert hm4
        decide
  rw [lastPartID, splitID_no_i _ hnoI]
  show parseIntChars (stripBoth pyWs (stripBoth parenSpace
    (' ' :: (renderInt i ++ [')'])))) = some i
  rw [stripBoth_wrap parenSpace (renderInt i) ' ' ')' (by decide) (by decide)
    c0 dtail hhead hps0 c1 dinit hconc hps1]
  rw [stripBoth_noop pyWs (renderInt i) c0 dtail hhead hws0 c1 dinit hconc hws1]
  exact parseIntChars_renderInt i

end AppPy
